import Mathlib

/-!
Verification of the record-normalization (JSON flattening) core of the
pyosh client library.  The Python functions `OSH_API._flatten_facilities_json`
and the property-flattening loop of `OSH_API.get_facility` are shallowly
embedded as pure Lean functions over an inductive JSON value type; dict
mutation becomes explicit association-list update, and Python runtime
exceptions become `Except PyErr`.
-/

namespace Pyosh

/-- A decoded Python/JSON value.  Numbers are carried as their textual
rendering (the embedding never computes with them, it only copies and
prints them, so `num "10.5"` stands for the float `10.5`). -/
inductive Json where
  | null : Json
  | b : Bool → Json
  | num : String → Json
  | str : String → Json
  | arr : List Json → Json
  | obj : List (String × Json) → Json

/-- A Python dict with string keys, in insertion order (Python 3.7+ dicts
preserve insertion order; updates keep the original position). -/
abbrev Row := List (String × Json)

/-- Python runtime exceptions that the embedded code can raise. -/
inductive PyErr where
  | zeroDiv | keyError | typeError | indexError | attrError
  deriving DecidableEq, Repr

/-- `setK m k v` is Python `m[k] = v` on an insertion-ordered dict:
an existing key keeps its position and gets the new value, a new key is
appended at the end. -/
def setK : Row → String → Json → Row
  | [], k, v => [(k, v)]
  | (k0, v0) :: rest, k, v =>
      if k0 = k then (k0, v) :: rest else (k0, v0) :: setK rest k v

/-- Python `nd.update(src)`: assign every key/value of `src` into `nd`,
in `src` iteration order. -/
def updDict (nd : Row) (src : Row) : Row :=
  src.foldl (fun m p => setK m p.1 p.2) nd

/-- The single-quote character, used by Python `repr` of strings. -/
def sq : String := String.singleton (Char.ofNat 39)

mutual

/-- Python `repr` of a decoded JSON value (as produced when a composite
value is interpolated into an f-string). -/
def pyRepr : Json → String
  | Json.null => "None"
  | Json.b true => "True"
  | Json.b false => "False"
  | Json.num s => s
  | Json.str s => sq ++ s ++ sq
  | Json.arr l => "[" ++ pyReprList l ++ "]"
  | Json.obj m => "\x7b" ++ pyReprPairs m ++ "\x7d"

/-- Python `repr` of the comma-separated elements of a list. -/
def pyReprList : List Json → String
  | [] => ""
  | [x] => pyRepr x
  | x :: y :: rest => pyRepr x ++ ", " ++ pyReprList (y :: rest)

/-- Python `repr` of the comma-separated `key: value` items of a dict. -/
def pyReprPairs : List (String × Json) → String
  | [] => ""
  | [(k, v)] => sq ++ k ++ sq ++ ": " ++ pyRepr v
  | (k, v) :: y :: rest =>
      sq ++ k ++ sq ++ ": " ++ pyRepr v ++ ", " ++ pyReprPairs (y :: rest)

end

/-- Python `str(v)` = `f"{v}"`: strings print without quotes, everything
else prints as its `repr`. -/
def pyToStr : Json → String
  | Json.str s => s
  | j => pyRepr j

/-- `strStarts p s`: the char list `p` is an initial segment of `s`. -/
def strStarts : List Char → List Char → Bool
  | [], _ => true
  | _ :: _, [] => false
  | a :: ps, c :: ss => a = c && strStarts ps ss

/-- Python `k.startswith(p)`. -/
def pyStartsWith (s p : String) : Bool :=
  strStarts p.data s.data

/-- Python `text.replace("lng:", "lon:")` on a char list: scan left to
right, rewriting each non-overlapping occurrence of `lng:` to `lon:`.
The `fuel` argument only drives structural recursion; with
`fuel ≥ length` (as used below) it never runs out, since every step
consumes at least one character. -/
def replGo : Nat → List Char → List Char
  | 0, l => l
  | _ + 1, [] => []
  | fuel + 1, c :: rest =>
      if c = 'l' ∧ strStarts ['n', 'g', ':'] rest = true then
        'l' :: 'o' :: 'n' :: ':' :: replGo fuel (rest.drop 3)
      else c :: replGo fuel rest

/-- Python `text.replace("lng:", "lon:")` on a char list. -/
def replLngChars (l : List Char) : List Char :=
  replGo l.length l

/-- Python `text.replace("lng:", "lon:")`. -/
def replLng (s : String) : String :=
  String.mk (replLngChars s.data)

/-- Python `"|".join([f"{k}:{v}" for k, v in m.items()])`. -/
def serPairs (m : List (String × Json)) : String :=
  String.intercalate "|" (m.map (fun p => p.1 ++ ":" ++ pyToStr p.2))

/-- Python `v["coordinates"][i]` where failures are observed only as
`None` (the caller wraps the subscripts in a bare `try`/`except`).
A string subscripted by an int yields its i-th character. -/
def coordAt (v : Json) (i : Nat) : Option Json :=
  match v with
  | Json.obj m =>
      match m.lookup "coordinates" with
      | some (Json.arr l) => l.get? i
      | some (Json.str s) => (s.data.get? i).map (fun c => Json.str (String.singleton c))
      | _ => none
  | _ => none

/-- Python `v["coordinates"][i]` with the exception it raises on failure
(no `try`/`except` at the call sites that use this one). -/
def coordAtE (v : Json) (i : Nat) : Except PyErr Json :=
  match v with
  | Json.obj m =>
      match m.lookup "coordinates" with
      | none => Except.error PyErr.keyError
      | some (Json.arr l) =>
          match l.get? i with
          | some x => Except.ok x
          | none => Except.error PyErr.indexError
      | some (Json.str s) =>
          match s.data.get? i with
          | some c => Except.ok (Json.str (String.singleton c))
          | none => Except.error PyErr.indexError
      | some _ => Except.error PyErr.typeError
  | _ => Except.error PyErr.typeError

/-- Python iteration `for x in v`: a list yields its elements, a string
its characters, a dict its keys; anything else raises `TypeError`. -/
def pyIter : Json → Except PyErr (List Json)
  | Json.arr l => Except.ok l
  | Json.str s => Except.ok (s.data.map (fun c => Json.str (String.singleton c)))
  | Json.obj m => Except.ok (m.map (fun p => Json.str p.1))
  | _ => Except.error PyErr.typeError

/-- Python `len(v)`: defined for lists, strings and dicts; `None` models
the `TypeError` raised elsewhere. -/
def pyLen : Json → Option Nat
  | Json.arr l => some l.length
  | Json.str s => some s.length
  | Json.obj m => some m.length
  | _ => none

/-- Python `"\n".join(lines)` where `lines` may hold arbitrary values:
joining succeeds only when every element is a string. -/
def joinLines : List Json → Except PyErr String
  | [] => Except.ok ""
  | [Json.str s] => Except.ok s
  | Json.str s :: y :: rest =>
      (joinLines (y :: rest)).map (fun t => s ++ "\n" ++ t)
  | _ => Except.error PyErr.typeError

/-- Python `["|".join(f"{k}:{v}" for k, v in x.items()) for x in l]`:
each element must be a dict, otherwise `.items()` raises
`AttributeError`. -/
def serLinesAux : List Json → Except PyErr (List String)
  | [] => Except.ok []
  | Json.obj m :: rest => (serLinesAux rest).map (fun ls => serPairs m :: ls)
  | _ :: _ => Except.error PyErr.attrError

/-- The inner `for entry in vvv` loop of `_flatten_facilities_json`'s
match/dict/dict branch: a dict entry appends its serialized line, a
string entry resets `lines` to `[vvv]` (the whole iterated value), and
anything else runs the `1/0` "unimplemented" assertion. -/
def entryLoopE (vvv : Json) : List Json → List Json → Except PyErr (List Json)
  | lines, [] => Except.ok lines
  | lines, Json.obj m :: rest =>
      entryLoopE vvv (lines ++ [Json.str (serPairs m)]) rest
  | _, Json.str _ :: rest => entryLoopE vvv [vvv] rest
  | _, _ :: _ => Except.error PyErr.zeroDiv

/-- One iteration of `for kkk, vvv in vv.items()` in the match/dict/dict
branch: iterate `vvv`, build `lines`, join them and store the result
under `match_<kk>_<kkk>` after the `lng:`→`lon:` replacement. -/
def innerStep (kk : String) (nd : Row) (p : String × Json) : Except PyErr Row := do
  let items ← pyIter p.2
  let lines ← entryLoopE p.2 [] items
  let s ← joinLines lines
  Except.ok (setK nd ("match_" ++ kk ++ "_" ++ p.1) (Json.str (replLng s)))

/-- One iteration of `for kk, vv in v.items()` in the match/dict branch
of `_flatten_facilities_json`: a list value is serialized line-by-line
("" when empty), a dict value is expanded one further level, a scalar
`ppe_` key is dropped, and any other scalar is stored as `match_<kk>`. -/
def matchDictStep (nd : Row) (kv : String × Json) : Except PyErr Row :=
  match kv.2 with
  | Json.arr [] => Except.ok (setK nd ("match_" ++ kv.1) (Json.str ""))
  | Json.arr (v0 :: vs) =>
      (serLinesAux (v0 :: vs)).map
        (fun ls => setK nd ("match_" ++ kv.1)
          (Json.str (replLng (String.intercalate "\n" ls))))
  | Json.obj inner => inner.foldlM (innerStep kv.1) nd
  | _ =>
      if pyStartsWith kv.1 "ppe_" then Except.ok nd
      else Except.ok (setK nd ("match_" ++ kv.1) kv.2)

/-- One iteration of `for k, v in match.items()` in
`_flatten_facilities_json`: a list value runs the `1/0` assertion,
`Feature`/`type` are skipped, `geometry` maps to `match_lon`/`match_lat`
(raising on malformed coordinates), a dict value goes through
`matchDictStep`, and any other value is stored as `match_<k>`. -/
def matchStep (nd : Row) (kv : String × Json) : Except PyErr Row :=
  match kv.2 with
  | Json.arr _ => Except.error PyErr.zeroDiv
  | v =>
      if kv.1 = "Feature" || kv.1 = "type" then Except.ok nd
      else if kv.1 = "geometry" then do
        let a ← coordAtE v 0
        let nd1 := setK nd "match_lon" a
        let b ← coordAtE v 1
        Except.ok (setK nd1 "match_lat" b)
      else
        match v with
        | Json.obj inner => inner.foldlM matchDictStep nd
        | _ => Except.ok (setK nd ("match_" ++ kv.1) kv.2)

/-- Processing of one match entry: start from `{"match_no": n}` updated
with the base entry, then run `matchStep` over the match's items
(a non-dict match raises `AttributeError` at `.items()`). -/
def procMatch (base : Row) (n : Nat) (m : Json) : Except PyErr Row :=
  match m with
  | Json.obj ms =>
      ms.foldlM matchStep (updDict [("match_no", Json.num (toString n))] base)
  | _ => Except.error PyErr.attrError

/-- The `for match in json_data["matches"]` loop with its 1-based
`match_no` counter; an exception in any entry aborts the whole call. -/
def matchLoop (base : Row) : Nat → List Json → Except PyErr (List Row)
  | _, [] => Except.ok []
  | n, m :: rest => do
      let r ← procMatch base n m
      let rs ← matchLoop base (n + 1) rest
      Except.ok (r :: rs)

/-- One iteration of the base-entry loop of `_flatten_facilities_json`:
`matches` is skipped, `geocoded_geometry` yields `lon`/`lat` or the
`(-1, -1)` sentinel when either subscript fails, `None` becomes `""`,
and every other value is stored unchanged. -/
def baseStep (m : Row) (kv : String × Json) : Row :=
  if kv.1 = "matches" then m
  else if kv.1 = "geocoded_geometry" then
    match coordAt kv.2 0, coordAt kv.2 1 with
    | some a, some b => setK (setK m "lon" a) "lat" b
    | _, _ => setK (setK m "lon" (Json.num "-1")) "lat" (Json.num "-1")
  else
    match kv.2 with
    | Json.null => setK m kv.1 (Json.str "")
    | v => setK m kv.1 v

/-- The base entry built by the first loop of `_flatten_facilities_json`. -/
def baseEntry (entries : List (String × Json)) : Row :=
  entries.foldl baseStep []

/-- `OSH_API._flatten_facilities_json`, on the items of the decoded JSON
object: build the base entry, then look up `"matches"` (raising
`KeyError` when absent); with a non-empty match group return one row per
match, otherwise the single base row. -/
def flattenFacilities (entries : List (String × Json)) : Except PyErr (List Row) :=
  let base := baseEntry entries
  match entries.lookup "matches" with
  | none => Except.error PyErr.keyError
  | some mv =>
      match pyLen mv with
      | none => Except.error PyErr.typeError
      | some n =>
          if n > 0 then
            match pyIter mv with
            | Except.ok ms => matchLoop base 1 ms
            | Except.error e => Except.error e
          else Except.ok [base]

/-- One iteration of `for kk in v.keys()` in `get_facility`'s
`extended_fields` branch: serialize `v[kk]` line-by-line and store the
result under `<kk>_extended` after the `lng:`→`lon:` replacement. -/
def extStep (entry : Row) (p : String × Json) : Except PyErr Row := do
  let items ← pyIter p.2
  let ls ← serLinesAux items
  Except.ok (setK entry (p.1 ++ "_extended")
    (Json.str (replLng (String.intercalate "\n" ls))))

/-- One iteration of `for k, v in data["properties"].items()` in
`get_facility`: `ppe_` keys are dropped first; a list of dicts is
serialized line-by-line with the `lng:` replacement; any other list is
newline-joined (strings only); `extended_fields` is expanded one level
when requested and dropped otherwise; `created_from` is serialized as a
single `|`-joined line; `None` becomes `""`; anything else is stored
unchanged. -/
def gfStep (ref : Bool) (entry : Row) (kv : String × Json) : Except PyErr Row :=
  if pyStartsWith kv.1 "ppe_" then Except.ok entry
  else
    match kv.2 with
    | Json.arr l =>
        match l with
        | Json.obj _ :: _ =>
            (serLinesAux l).map
              (fun ls => setK entry kv.1
                (Json.str (replLng (String.intercalate "\n" ls))))
        | _ =>
            (joinLines l).map (fun s => setK entry kv.1 (Json.str s))
    | v =>
        if kv.1 = "extended_fields" then
          if ref then
            match v with
            | Json.obj inner => inner.foldlM extStep entry
            | _ => Except.error PyErr.attrError
          else Except.ok entry
        else if kv.1 = "created_from" then
          match v with
          | Json.obj m => Except.ok (setK entry kv.1 (Json.str (serPairs m)))
          | _ => Except.error PyErr.attrError
        else
          match v with
          | Json.null => Except.ok (setK entry kv.1 (Json.str ""))
          | _ => Except.ok (setK entry kv.1 v)

/-- Python `data[k]`: the value, or `KeyError` when the key is absent. -/
def getJ (data : List (String × Json)) (k : String) : Except PyErr Json :=
  match data.lookup k with
  | some x => Except.ok x
  | none => Except.error PyErr.keyError

/-- The `.items()` of a decoded value: the pair list of a dict, or
`AttributeError` for anything else. -/
def itemsJ : Json → Except PyErr (List (String × Json))
  | Json.obj ps => Except.ok ps
  | _ => Except.error PyErr.attrError

/-- The response-flattening of `OSH_API.get_facility` on the decoded
JSON object `data`: seed the entry with `id`, `lon`, `lat` (raising on
missing keys or malformed coordinates — there is no `try` here), then
run `gfStep` over `data["properties"]`. -/
def getFacilityFlatten (data : List (String × Json)) (ref : Bool) :
    Except PyErr Row := do
  let idv ← getJ data "id"
  let g ← getJ data "geometry"
  let lon ← coordAtE g 0
  let lat ← coordAtE g 1
  let props ← getJ data "properties"
  let ps ← itemsJ props
  ps.foldlM (gfStep ref) [("id", idv), ("lon", lon), ("lat", lat)]

/-- A value that is not itself a nested object or sequence. -/
def scalarJ : Json → Bool
  | Json.arr _ => false
  | Json.obj _ => false
  | _ => true

/-- A row is flat when none of its values is a nested object or
sequence (the spec's FlatRow invariant). -/
def rowFlat (r : Row) : Bool :=
  r.all (fun p => scalarJ p.2)

/-- An optional value that, when present, is scalar. -/
def optScalar : Option Json → Bool
  | some x => scalarJ x
  | none => true

/-- The char list contains the substring `lng:`. -/
def hasLng : List Char → Bool
  | [] => false
  | c :: rest => strStarts ['l', 'n', 'g', ':'] (c :: rest) || hasLng rest

/-! ### Generic lemmas about the embedded dict operations -/

theorem ok_bind {α β : Type} (a : α) (f : α → Except PyErr β) :
    (Except.ok a >>= f) = f a := rfl

theorem error_bind {α β : Type} (e : PyErr) (f : α → Except PyErr β) :
    ((Except.error e : Except PyErr α) >>= f) = Except.error e := rfl

theorem bindOk {α β : Type} {x : Except PyErr α} {f : α → Except PyErr β} {r : β}
    (h : (x >>= f) = Except.ok r) : ∃ a, x = Except.ok a ∧ f a = Except.ok r := by
  cases x with
  | error e => exact absurd h (by simp [error_bind])
  | ok a => exact ⟨a, rfl, by simpa [ok_bind] using h⟩

theorem lookup_cons_self (k : String) (v : Json) (l : Row) :
    List.lookup k ((k, v) :: l) = some v := by
  simp [List.lookup_cons]

theorem lookup_cons_ne {k k0 : String} (h : k ≠ k0) (v0 : Json) (l : Row) :
    List.lookup k ((k0, v0) :: l) = List.lookup k l := by
  have hb : (k == k0) = false := beq_eq_false_iff_ne.mpr h
  simp [List.lookup_cons, hb]

theorem setK_lookup_self (m : Row) (k : String) (v : Json) :
    (setK m k v).lookup k = some v := by
  induction m with
  | nil => simp [setK, lookup_cons_self]
  | cons p rest ih =>
      obtain ⟨k0, v0⟩ := p
      by_cases h : k0 = k
      · subst h
        simp [setK, lookup_cons_self]
      · have hne : k ≠ k0 := fun hc => h hc.symm
        simp [setK, h, lookup_cons_ne hne, ih]

theorem setK_lookup_ne {k k2 : String} (h : k ≠ k2) (m : Row) (v : Json) :
    (setK m k2 v).lookup k = m.lookup k := by
  induction m with
  | nil => exact lookup_cons_ne h v []
  | cons p rest ih =>
      obtain ⟨k0, v0⟩ := p
      by_cases h0 : k0 = k2
      · subst h0
        simp [setK, lookup_cons_ne h]
      · simp [setK, h0]
        by_cases hk : k = k0
        · subst hk
          simp [lookup_cons_self]
        · simp [lookup_cons_ne hk, ih]

theorem setK_lookup_isSome {k : String} (m : Row) (k2 : String) (v : Json)
    (h : (m.lookup k).isSome = true) : ((setK m k2 v).lookup k).isSome = true := by
  by_cases hk : k = k2
  · subst hk
    simp [setK_lookup_self]
  · rwa [setK_lookup_ne hk]

/-! ### Shape lemmas about the match loop -/

theorem matchStep_arr (nd : Row) (k : String) (l : List Json) :
    matchStep nd (k, Json.arr l) = Except.error PyErr.zeroDiv := rfl

theorem foldlM_matchStep_err (k : String) (l : List Json) :
    ∀ (mi : List (String × Json)) (nd : Row), (k, Json.arr l) ∈ mi →
      ∃ e, mi.foldlM matchStep nd = Except.error e := by
  intro mi
  induction mi with
  | nil => intro nd h; exact absurd h (List.not_mem_nil _)
  | cons p rest ih =>
      intro nd h
      rw [List.foldlM_cons]
      rcases List.mem_cons.mp h with heq | hmem
      · refine ⟨PyErr.zeroDiv, ?_⟩
        rw [← heq, matchStep_arr]
        exact error_bind PyErr.zeroDiv _
      · cases hms : matchStep nd p with
        | error e => exact ⟨e, error_bind e _⟩
        | ok nd1 =>
            obtain ⟨e, he⟩ := ih nd1 hmem
            exact ⟨e, he⟩

theorem procMatch_err (base : Row) (n : Nat) (mi : List (String × Json))
    (k : String) (l : List Json) (hf : (k, Json.arr l) ∈ mi) :
    ∃ e, procMatch base n (Json.obj mi) = Except.error e :=
  foldlM_matchStep_err k l mi _ hf

theorem matchLoop_err (base : Row) (k : String) (l : List Json)
    (mi : List (String × Json)) (hf : (k, Json.arr l) ∈ mi) :
    ∀ (ms : List Json) (n : Nat), Json.obj mi ∈ ms →
      ∃ e, matchLoop base n ms = Except.error e := by
  intro ms
  induction ms with
  | nil => intro n h; exact absurd h (List.not_mem_nil _)
  | cons m rest ih =>
      intro n hm
      rcases List.mem_cons.mp hm with heq | hmem
      · obtain ⟨e, he⟩ := procMatch_err base n mi k l hf
        exact ⟨e, by simp only [matchLoop]; rw [← heq, he, error_bind]⟩
      · cases hp : procMatch base n m with
        | error e => exact ⟨e, by simp only [matchLoop]; rw [hp, error_bind]⟩
        | ok r =>
            obtain ⟨e, he⟩ := ih (n + 1) hmem
            exact ⟨e, by simp only [matchLoop]; rw [hp, ok_bind, he, error_bind]⟩

theorem matchLoop_length (base : Row) :
    ∀ (ms : List Json) (n : Nat) (rows : List Row),
      matchLoop base n ms = Except.ok rows → rows.length = ms.length := by
  intro ms
  induction ms with
  | nil =>
      intro n rows h
      simp only [matchLoop] at h
      rw [← Except.ok.inj h]
      rfl
  | cons m rest ih =>
      intro n rows h
      simp only [matchLoop] at h
      obtain ⟨r, hr, h2⟩ := bindOk h
      obtain ⟨rs, hrs, h3⟩ := bindOk h2
      rw [← Except.ok.inj h3]
      simp [ih (n + 1) rs hrs]

/-! ### Claim theorems -/

/-- C1: for every input record that has a `matches` key holding a list, if
`_flatten_facilities_json` returns rows at all, their number equals
`max 1 (number of match entries)`: one row for an empty match list,
one row per match otherwise. -/
theorem c1_row_count (entries : List (String × Json)) (ms : List Json)
    (rows : List Row)
    (hm : entries.lookup "matches" = some (Json.arr ms))
    (hok : flattenFacilities entries = Except.ok rows) :
    rows.length = max 1 ms.length := by
  simp only [flattenFacilities, hm, pyLen, pyIter] at hok
  by_cases hpos : ms.length > 0
  · rw [if_pos hpos] at hok
    have := matchLoop_length (baseEntry entries) ms 1 rows hok
    omega
  · rw [if_neg hpos] at hok
    have : rows = [baseEntry entries] := (Except.ok.inj hok).symm
    subst this
    have : ms.length = 0 := by omega
    simp [this]

/-- C1 witness: a record with one match entry yields exactly one row. -/
theorem c1_row_count_witness :
    ([[("match_no", Json.num "1"), ("a", Json.str "b")]] : List Row).length
      = max 1 ([Json.obj []] : List Json).length :=
  c1_row_count [("a", Json.str "b"), ("matches", Json.arr [Json.obj []])]
    [Json.obj []] [[("match_no", Json.num "1"), ("a", Json.str "b")]] rfl rfl

/-- C4: a match entry with a top-level field holding a bare list of
scalars makes `_flatten_facilities_json` raise: processing that field is
the `1/0` `ZeroDivisionError`, and the whole call raises some runtime
fault instead of returning rows. -/
theorem c4_bare_list_faults (entries : List (String × Json)) (ms : List Json)
    (mi : List (String × Json)) (k : String) (l : List Json)
    (hm : entries.lookup "matches" = some (Json.arr ms))
    (hmem : Json.obj mi ∈ ms)
    (hf : (k, Json.arr l) ∈ mi)
    (hscal : ∀ x ∈ l, scalarJ x = true) :
    (∀ nd : Row, matchStep nd (k, Json.arr l) = Except.error PyErr.zeroDiv)
    ∧ ∃ e, flattenFacilities entries = Except.error e := by
  refine ⟨fun nd => matchStep_arr nd k l, ?_⟩
  obtain ⟨e, he⟩ := matchLoop_err (baseEntry entries) k l mi hf ms 1 hmem
  have hpos : ms.length > 0 := List.length_pos.mpr (List.ne_nil_of_mem hmem)
  exact ⟨e, by simp [flattenFacilities, hm, pyLen, pyIter, hpos, he]⟩

/-- C4 witness: the `1/0` fault at a concrete bare-list match field. -/
theorem c4_bare_list_faults_witness :
    matchStep [] ("a", Json.arr [Json.num "1"]) = Except.error PyErr.zeroDiv :=
  (c4_bare_list_faults
    [("matches", Json.arr [Json.obj [("a", Json.arr [Json.num "1"])]])]
    [Json.obj [("a", Json.arr [Json.num "1"])]]
    [("a", Json.arr [Json.num "1"])] "a" [Json.num "1"]
    rfl (List.Mem.head _) (List.Mem.head _)
    (by intro x hx; rw [List.mem_singleton] at hx; subst hx; rfl)).1 []

/-- C9: the flattening operations are deterministic, side-effect-free
functions of their input: equal inputs give equal outputs. -/
theorem c9_deterministic (e1 e2 : List (String × Json)) (h : e1 = e2) :
    flattenFacilities e1 = flattenFacilities e2 ∧
    ∀ ref : Bool, getFacilityFlatten e1 ref = getFacilityFlatten e2 ref := by
  subst h
  exact ⟨rfl, fun _ => rfl⟩

/-- C9 witness: determinism at a concrete record. -/
theorem c9_deterministic_witness :
    flattenFacilities [("matches", Json.arr [])]
      = flattenFacilities [("matches", Json.arr [])] :=
  (c9_deterministic [("matches", Json.arr [])] [("matches", Json.arr [])] rfl).1

/-- C10: `_flatten_facilities_json` requires a `matches` key: for every
input object without one it raises `KeyError` instead of treating the
record as having no matches. -/
theorem c10_missing_matches (entries : List (String × Json))
    (h : entries.lookup "matches" = none) :
    flattenFacilities entries = Except.error PyErr.keyError := by
  simp [flattenFacilities, h]

/-- C10 witness: the `KeyError` at a concrete record without `matches`. -/
theorem c10_missing_matches_witness :
    flattenFacilities [("a", Json.str "b")] = Except.error PyErr.keyError :=
  c10_missing_matches [("a", Json.str "b")] rfl

theorem baseStep_keeps (t : String) (m : Row) (p : String × Json)
    (h1 : p.1 ≠ t) (h2 : p.1 ≠ "geocoded_geometry") :
    (baseStep m p).lookup t = m.lookup t := by
  obtain ⟨k, v⟩ := p
  simp only [baseStep]
  by_cases hm : k = "matches"
  · simp [hm]
  · rw [if_neg hm, if_neg h2]
    cases v <;> exact setK_lookup_ne (Ne.symm h1) m _

theorem foldl_baseStep_keeps (t : String) :
    ∀ (post : List (String × Json)) (m : Row),
      (∀ p ∈ post, p.1 ≠ t ∧ p.1 ≠ "geocoded_geometry") →
      (List.foldl baseStep m post).lookup t = m.lookup t := by
  intro post
  induction post with
  | nil => intro m _; rfl
  | cons p rest ih =>
      intro m hp
      rw [List.foldl_cons,
        ih (baseStep m p) (fun q hq => hp q (List.mem_cons_of_mem p hq))]
      exact baseStep_keeps t m p (hp p (List.mem_cons_self p rest)).1
        (hp p (List.mem_cons_self p rest)).2

/-- C6: the base loop of `_flatten_facilities_json` maps the
`geocoded_geometry` sub-object's coordinates to `lon` = coordinates[0]
and `lat` = coordinates[1]; when either coordinate access fails it emits
the sentinel `lon = -1`, `lat = -1` instead of raising. -/
theorem c6_geometry (pre post : List (String × Json)) (v : Json)
    (hpost : ∀ p ∈ post, p.1 ≠ "lon" ∧ p.1 ≠ "lat" ∧ p.1 ≠ "geocoded_geometry") :
    (∀ a b, coordAt v 0 = some a → coordAt v 1 = some b →
      (baseEntry (pre ++ ("geocoded_geometry", v) :: post)).lookup "lon" = some a ∧
      (baseEntry (pre ++ ("geocoded_geometry", v) :: post)).lookup "lat" = some b) ∧
    ((coordAt v 0 = none ∨ coordAt v 1 = none) →
      (baseEntry (pre ++ ("geocoded_geometry", v) :: post)).lookup "lon"
          = some (Json.num "-1") ∧
      (baseEntry (pre ++ ("geocoded_geometry", v) :: post)).lookup "lat"
          = some (Json.num "-1")) := by
  have hb : baseEntry (pre ++ ("geocoded_geometry", v) :: post)
      = List.foldl baseStep
          (baseStep (List.foldl baseStep [] pre) ("geocoded_geometry", v)) post := by
    simp [baseEntry, List.foldl_append]
  have hkeepLon := foldl_baseStep_keeps "lon" post
    (baseStep (List.foldl baseStep [] pre) ("geocoded_geometry", v))
    (fun q hq => ⟨(hpost q hq).1, (hpost q hq).2.2⟩)
  have hkeepLat := foldl_baseStep_keeps "lat" post
    (baseStep (List.foldl baseStep [] pre) ("geocoded_geometry", v))
    (fun q hq => ⟨(hpost q hq).2.1, (hpost q hq).2.2⟩)
  constructor
  · intro a b h0 h1
    have hstep : baseStep (List.foldl baseStep [] pre) ("geocoded_geometry", v)
        = setK (setK (List.foldl baseStep [] pre) "lon" a) "lat" b := by
      simp only [baseStep]
      rw [if_neg (by decide), if_pos trivial, h0, h1]
    rw [hb, hkeepLon, hkeepLat, hstep]
    exact ⟨by rw [setK_lookup_ne (by decide), setK_lookup_self],
      setK_lookup_self _ _ _⟩
  · intro hnone
    have hstep : baseStep (List.foldl baseStep [] pre) ("geocoded_geometry", v)
        = setK (setK (List.foldl baseStep [] pre) "lon" (Json.num "-1")) "lat"
            (Json.num "-1") := by
      simp only [baseStep]
      rw [if_neg (by decide), if_pos trivial]
      rcases hnone with h0 | h1
      · rw [h0]
      · rw [h1]
        cases coordAt v 0 <;> rfl
    rw [hb, hkeepLon, hkeepLat, hstep]
    exact ⟨by rw [setK_lookup_ne (by decide), setK_lookup_self],
      setK_lookup_self _ _ _⟩

/-- C6 witness: concrete coordinates land in `lon` and `lat`. -/
theorem c6_geometry_witness :
    (baseEntry [("id", Json.str "X"),
      ("geocoded_geometry",
        Json.obj [("coordinates", Json.arr [Json.num "10", Json.num "20"])]),
      ("name", Json.str "N")]).lookup "lon" = some (Json.num "10") ∧
    (baseEntry [("id", Json.str "X"),
      ("geocoded_geometry",
        Json.obj [("coordinates", Json.arr [Json.num "10", Json.num "20"])]),
      ("name", Json.str "N")]).lookup "lat" = some (Json.num "20") :=
  (c6_geometry [("id", Json.str "X")] [("name", Json.str "N")]
      (Json.obj [("coordinates", Json.arr [Json.num "10", Json.num "20"])])
      (by decide)).1 (Json.num "10") (Json.num "20") rfl rfl

/-- C3 counterexample: the claim "every `ppe_`-prefixed field is absent
from every output row" is false — the base loop of
`_flatten_facilities_json` has no `ppe_` filter, so a top-level
`ppe_hazard` field survives into the returned row. -/
theorem c3_counterexample :
    flattenFacilities [("ppe_hazard", Json.str "x"), ("matches", Json.arr [])]
      = Except.ok [[("ppe_hazard", Json.str "x")]]
    ∧ ([(("ppe_hazard" : String), Json.str "x")] : Row).lookup "ppe_hazard"
      = some (Json.str "x") :=
  ⟨rfl, rfl⟩

/-- C3 amended: in `_flatten_facilities_json`, `ppe_`-prefixed keys are
dropped only when they are scalar-valued sub-keys of a dict-valued match
field; `get_facility`'s property loop drops them at its top level
regardless of value.  (Base fields, top-level match fields and list- or
dict-valued sub-keys with a `ppe_` prefix are retained, per the
counterexample.)  The last conjunct shows a scalar `ppe_` sub-key of a
match dict field contributing nothing to the row. -/
theorem c3_ppe_drop_sites :
    (∀ (nd : Row) (kk : String) (v : Json), scalarJ v = true →
        pyStartsWith kk "ppe_" = true → matchDictStep nd (kk, v) = Except.ok nd)
    ∧ (∀ (ref : Bool) (entry : Row) (k : String) (v : Json),
        pyStartsWith k "ppe_" = true → gfStep ref entry (k, v) = Except.ok entry)
    ∧ flattenFacilities [("matches",
        Json.arr [Json.obj [("d", Json.obj [("ppe_x", Json.str "s")])]])]
      = Except.ok [[("match_no", Json.num "1")]] := by
  refine ⟨?_, ?_, rfl⟩
  · intro nd kk v hs hp
    cases v with
    | arr l => simp [scalarJ] at hs
    | obj m => simp [scalarJ] at hs
    | null => simp [matchDictStep, hp]
    | b x => simp [matchDictStep, hp]
    | num s => simp [matchDictStep, hp]
    | str s => simp [matchDictStep, hp]
  · intro ref entry k v hp
    simp [gfStep, hp]

/-- C3 amended witness: the two drop sites at concrete inputs. -/
theorem c3_ppe_drop_sites_witness :
    matchDictStep [] ("ppe_hazard", Json.str "x") = Except.ok []
    ∧ gfStep false [] ("ppe_hazard", Json.str "x") = Except.ok [] :=
  ⟨c3_ppe_drop_sites.1 [] "ppe_hazard" (Json.str "x") rfl rfl,
   c3_ppe_drop_sites.2.1 false [] "ppe_hazard" (Json.str "x") rfl⟩

theorem strStarts_three {rest : List Char}
    (h : strStarts ['n', 'g', ':'] rest = true) :
    ∃ r3, rest = 'n' :: 'g' :: ':' :: r3 := by
  cases rest with
  | nil => simp [strStarts] at h
  | cons c1 t1 =>
    cases t1 with
    | nil => simp [strStarts] at h
    | cons c2 t2 =>
      cases t2 with
      | nil => simp [strStarts] at h
      | cons c3 t3 =>
        simp only [strStarts, Bool.and_eq_true, decide_eq_true_eq] at h
        obtain ⟨h1, h2, h3, _⟩ := h
        exact ⟨t3, by rw [← h1, ← h2, ← h3]⟩

theorem replSafe : ∀ (n : Nat) (l : List Char), l.length ≤ n →
    hasLng (replGo n l) = false ∧
    (strStarts ['n', 'g', ':'] (replGo n l) = true →
      strStarts ['n', 'g', ':'] l = true) ∧
    (strStarts ['g', ':'] (replGo n l) = true →
      strStarts ['g', ':'] l = true) ∧
    (strStarts [':'] (replGo n l) = true → strStarts [':'] l = true) := by
  intro n
  induction n with
  | zero =>
      intro l hl
      have : l = [] := List.eq_nil_of_length_eq_zero (Nat.le_zero.mp hl)
      subst this
      exact ⟨rfl, fun h => h, fun h => h, fun h => h⟩
  | succ n ih =>
      intro l hl
      cases l with
      | nil => exact ⟨rfl, fun h => h, fun h => h, fun h => h⟩
      | cons c rest =>
          by_cases hc : c = 'l' ∧ strStarts ['n', 'g', ':'] rest = true
          · obtain ⟨hc1, hc2⟩ := hc
            subst hc1
            obtain ⟨r3, hr⟩ := strStarts_three hc2
            subst hr
            have hrepl : replGo (n + 1) ('l' :: 'n' :: 'g' :: ':' :: r3)
                = 'l' :: 'o' :: 'n' :: ':' :: replGo n r3 := by
              rw [replGo, if_pos ⟨rfl, by simp [strStarts]⟩]
              rfl
            have ihr := ih r3 (by simp at hl; omega)
            rw [hrepl]
            refine ⟨?_, ?_, ?_, ?_⟩
            · simp [hasLng, strStarts, ihr.1]
            · intro h
              simp [strStarts] at h
            · intro h
              simp [strStarts] at h
            · intro h
              simp [strStarts] at h
          · have hrepl : replGo (n + 1) (c :: rest) = c :: replGo n rest := by
              rw [replGo, if_neg hc]
            have ihr := ih rest (by simp at hl; omega)
            rw [hrepl]
            refine ⟨?_, ?_, ?_, ?_⟩
            · rw [hasLng, Bool.or_eq_false_iff]
              refine ⟨?_, ihr.1⟩
              by_cases hcl : c = 'l'
              · subst hcl
                cases hsT : strStarts ['n', 'g', ':'] (replGo n rest) with
                | false => simp [strStarts, hsT]
                | true => exact absurd ⟨rfl, ihr.2.1 hsT⟩ hc
              · simp [strStarts, Ne.symm hcl]
            · intro h
              simp only [strStarts, Bool.and_eq_true, decide_eq_true_eq] at h ⊢
              exact ⟨h.1, ihr.2.2.1 h.2⟩
            · intro h
              simp only [strStarts, Bool.and_eq_true, decide_eq_true_eq] at h ⊢
              exact ⟨h.1, ihr.2.2.2 h.2⟩
            · intro h
              simp only [strStarts, Bool.and_eq_true, decide_eq_true_eq] at h ⊢
              exact ⟨h.1, h.2⟩

/-- C7 counterexample: the rename is not limited to sub-keys literally
named `lng` — the sub-record `{slng: 1}` serializes to `slon:1`, i.e.
the key `slng` (≠ `lng`) is rewritten too, because the source performs a
textual `.replace("lng:", "lon:")` on the serialized line. -/
theorem c7_counterexample :
    flattenFacilities [("matches", Json.arr [Json.obj [("d",
        Json.obj [("x", Json.arr [Json.obj [("slng", Json.num "1")]])])]])]
      = Except.ok [[("match_no", Json.num "1"), ("match_x", Json.str "slon:1")]]
    ∧ ("slng" : String) ≠ "lng" :=
  ⟨rfl, by decide⟩

/-- C7 amended: serialization rewrites every occurrence of the substring
`lng:` to `lon:` (a textual replacement): the sub-record
`{lng: 10.5, lat: 20.1}` serializes to `lon:10.5|lat:20.1`, and no
serialized output ever contains `lng:` — but keys merely ending in `lng`
and string values containing `lng:` are rewritten as well. -/
theorem c7_lng_rename :
    flattenFacilities [("matches", Json.arr [Json.obj [("d",
        Json.obj [("x", Json.arr [Json.obj [("lng", Json.num "10.5"),
          ("lat", Json.num "20.1")]])])]])]
      = Except.ok [[("match_no", Json.num "1"),
          ("match_x", Json.str "lon:10.5|lat:20.1")]]
    ∧ ∀ s : String, hasLng (replLng s).data = false := by
  refine ⟨rfl, fun s => ?_⟩
  exact (replSafe s.data.length s.data (Nat.le_refl _)).1

theorem mapOk {α β : Type} {x : Except PyErr α} {f : α → β} {r : β}
    (h : x.map f = Except.ok r) : ∃ a, x = Except.ok a ∧ f a = r := by
  cases x with
  | error e => simp [Except.map] at h
  | ok a => exact ⟨a, rfl, by simpa [Except.map] using h⟩

theorem strNe_append {a b : String} (h : a ≠ b) (s : String) :
    a ++ s ≠ b ++ s := by
  intro hEq
  apply h
  have hd := congrArg String.data hEq
  rw [String.data_append, String.data_append] at hd
  exact String.ext (List.append_cancel_right hd)

theorem extStep_ok_shape {d d2 : Row} {q : String × Json}
    (h : extStep d q = Except.ok d2) :
    ∃ s, d2 = setK d (q.1 ++ "_extended") s := by
  simp only [extStep] at h
  obtain ⟨items, hi, h2⟩ := bindOk h
  obtain ⟨ls, hls, h3⟩ := bindOk h2
  exact ⟨_, (Except.ok.inj h3).symm⟩

theorem foldlM_extStep_keeps (t : String) :
    ∀ (ipost : List (String × Json)) (d e2 : Row),
      (∀ q ∈ ipost, q.1 ++ "_extended" ≠ t) →
      List.foldlM extStep d ipost = Except.ok e2 →
      e2.lookup t = d.lookup t := by
  intro ipost
  induction ipost with
  | nil => intro d e2 _ h; rw [← Except.ok.inj h]
  | cons q rest ih =>
      intro d e2 hq h
      rw [List.foldlM_cons] at h
      obtain ⟨d1, hd1, h2⟩ := bindOk h
      obtain ⟨s, hs⟩ := extStep_ok_shape hd1
      rw [ih d1 e2 (fun p hp => hq p (List.mem_cons_of_mem q hp)) h2, hs,
        setK_lookup_ne (Ne.symm (hq q (List.mem_cons_self q rest)))]

theorem gfStep_ok_shape {ref : Bool} {e e2 : Row} {k : String} {v : Json}
    (h : gfStep ref e (k, v) = Except.ok e2) (h1 : k ≠ "extended_fields") :
    e2 = e ∨ ∃ w, e2 = setK e k w := by
  simp only [gfStep] at h
  by_cases hppe : pyStartsWith k "ppe_" = true
  · rw [if_pos hppe] at h
    exact Or.inl (Except.ok.inj h).symm
  · rw [if_neg hppe] at h
    cases v with
    | arr l =>
        cases l with
        | nil =>
            obtain ⟨s, _, hfs⟩ := mapOk h
            exact Or.inr ⟨_, hfs.symm⟩
        | cons x rest =>
            cases x <;>
              (obtain ⟨w, _, hfs⟩ := mapOk h; exact Or.inr ⟨_, hfs.symm⟩)
    | null =>
        replace h : (if k = "extended_fields" then
            (if ref = true then Except.error PyErr.attrError else Except.ok e)
          else if k = "created_from" then Except.error PyErr.attrError
          else Except.ok (setK e k (Json.str ""))) = Except.ok e2 := h
        rw [if_neg h1] at h
        by_cases hcf : k = "created_from"
        · rw [if_pos hcf] at h
          exact absurd h (by simp)
        · rw [if_neg hcf] at h
          exact Or.inr ⟨_, (Except.ok.inj h).symm⟩
    | b x =>
        replace h : (if k = "extended_fields" then
            (if ref = true then Except.error PyErr.attrError else Except.ok e)
          else if k = "created_from" then Except.error PyErr.attrError
          else Except.ok (setK e k (Json.b x))) = Except.ok e2 := h
        rw [if_neg h1] at h
        by_cases hcf : k = "created_from"
        · rw [if_pos hcf] at h
          exact absurd h (by simp)
        · rw [if_neg hcf] at h
          exact Or.inr ⟨_, (Except.ok.inj h).symm⟩
    | num s =>
        replace h : (if k = "extended_fields" then
            (if ref = true then Except.error PyErr.attrError else Except.ok e)
          else if k = "created_from" then Except.error PyErr.attrError
          else Except.ok (setK e k (Json.num s))) = Except.ok e2 := h
        rw [if_neg h1] at h
        by_cases hcf : k = "created_from"
        · rw [if_pos hcf] at h
          exact absurd h (by simp)
        · rw [if_neg hcf] at h
          exact Or.inr ⟨_, (Except.ok.inj h).symm⟩
    | str s =>
        replace h : (if k = "extended_fields" then
            (if ref = true then Except.error PyErr.attrError else Except.ok e)
          else if k = "created_from" then Except.error PyErr.attrError
          else Except.ok (setK e k (Json.str s))) = Except.ok e2 := h
        rw [if_neg h1] at h
        by_cases hcf : k = "created_from"
        · rw [if_pos hcf] at h
          exact absurd h (by simp)
        · rw [if_neg hcf] at h
          exact Or.inr ⟨_, (Except.ok.inj h).symm⟩
    | obj m =>
        replace h : (if k = "extended_fields" then
            (if ref = true then List.foldlM extStep e m else Except.ok e)
          else if k = "created_from" then
            Except.ok (setK e k (Json.str (serPairs m)))
          else Except.ok (setK e k (Json.obj m))) = Except.ok e2 := h
        rw [if_neg h1] at h
        by_cases hcf : k = "created_from"
        · rw [if_pos hcf] at h
          exact Or.inr ⟨_, (Except.ok.inj h).symm⟩
        · rw [if_neg hcf] at h
          exact Or.inr ⟨_, (Except.ok.inj h).symm⟩

theorem foldlM_gfStep_keeps (ref : Bool) (t : String) :
    ∀ (post : List (String × Json)) (e row : Row),
      (∀ p ∈ post, p.1 ≠ "extended_fields" ∧ p.1 ≠ t) →
      List.foldlM (gfStep ref) e post = Except.ok row →
      row.lookup t = e.lookup t := by
  intro post
  induction post with
  | nil => intro e row _ h; rw [← Except.ok.inj h]
  | cons p rest ih =>
      intro e row hp h
      rw [List.foldlM_cons] at h
      obtain ⟨e1, he1, h2⟩ := bindOk h
      have hkeep : e1.lookup t = e.lookup t := by
        obtain ⟨k, v⟩ := p
        rcases gfStep_ok_shape he1 (hp (k, v) (List.mem_cons_self _ rest)).1 with
          heq | ⟨w, hw⟩
        · rw [heq]
        · rw [hw,
            setK_lookup_ne (Ne.symm (hp (k, v) (List.mem_cons_self _ rest)).2)]
      rw [ih e1 row (fun q hq => hp q (List.mem_cons_of_mem p hq)) h2, hkeep]

/-- C8 counterexample: with the default `return_extended_fields = False`,
`get_facility`'s flattening drops the `extended_fields` object entirely,
so no `<innerkey>_extended` column is produced. -/
theorem c8_counterexample :
    getFacilityFlatten
      [("id", Json.str "A"),
       ("geometry", Json.obj [("coordinates", Json.arr [Json.num "1", Json.num "2"])]),
       ("properties", Json.obj [("extended_fields",
          Json.obj [("nm", Json.arr [Json.obj [("q", Json.num "3")]])])])]
      false
    = Except.ok [("id", Json.str "A"), ("lon", Json.num "1"), ("lat", Json.num "2")]
    ∧ ([("id", Json.str "A"), ("lon", Json.num "1"), ("lat", Json.num "2")] : Row).lookup
        "nm_extended" = none :=
  ⟨rfl, rfl⟩

/-- C8 amended: when extended fields are requested
(`return_extended_fields = True`), `get_facility`'s flattening expands
the `extended_fields` object one level: each inner key's list of
sub-records is serialized by the composite rule (`key:value` pairs
joined by `|`, entries joined by newline, with the `lng:`→`lon:`
replacement) and stored under `<innerkey>_extended`. -/
theorem c8_extended_fields (data : List (String × Json)) (row : Row)
    (ps pre post inner ipre ipost : List (String × Json))
    (kk : String) (items : List Json) (ls : List String)
    (hok : getFacilityFlatten data true = Except.ok row)
    (hprops : data.lookup "properties" = some (Json.obj ps))
    (hps : ps = pre ++ ("extended_fields", Json.obj inner) :: post)
    (hinner : inner = ipre ++ (kk, Json.arr items) :: ipost)
    (hser : serLinesAux items = Except.ok ls)
    (hipost : ∀ q ∈ ipost, q.1 ≠ kk)
    (hpost : ∀ p ∈ post, p.1 ≠ "extended_fields" ∧ p.1 ≠ kk ++ "_extended") :
    row.lookup (kk ++ "_extended")
      = some (Json.str (replLng (String.intercalate "\n" ls))) := by
  simp only [getFacilityFlatten] at hok
  obtain ⟨idv, hid, hok⟩ := bindOk hok
  obtain ⟨g, hg, hok⟩ := bindOk hok
  obtain ⟨lon, hlon, hok⟩ := bindOk hok
  obtain ⟨lat, hlat, hok⟩ := bindOk hok
  obtain ⟨props, hpr, hok⟩ := bindOk hok
  obtain ⟨ps2, hps2, hok⟩ := bindOk hok
  have hpv : props = Json.obj ps := by
    have hgj : getJ data "properties" = Except.ok (Json.obj ps) := by
      simp [getJ, hprops]
    rw [hgj] at hpr
    exact (Except.ok.inj hpr).symm
  subst hpv
  have hpsv : ps = ps2 := Except.ok.inj hps2
  subst hpsv
  rw [hps, List.foldlM_append] at hok
  obtain ⟨e1, he1, hok⟩ := bindOk hok
  rw [List.foldlM_cons] at hok
  obtain ⟨e2, he2, hok⟩ := bindOk hok
  have hext : gfStep true e1 ("extended_fields", Json.obj inner)
      = inner.foldlM extStep e1 := rfl
  rw [hext, hinner, List.foldlM_append] at he2
  obtain ⟨d1, hd1, he2⟩ := bindOk he2
  rw [List.foldlM_cons] at he2
  obtain ⟨d2, hd2, he2⟩ := bindOk he2
  have hstep : extStep d1 (kk, Json.arr items)
      = Except.ok (setK d1 (kk ++ "_extended")
          (Json.str (replLng (String.intercalate "\n" ls)))) := by
    simp only [extStep, pyIter, ok_bind, hser]
  rw [hstep] at hd2
  rw [foldlM_gfStep_keeps true (kk ++ "_extended") post e2 row hpost hok,
    foldlM_extStep_keeps (kk ++ "_extended") ipost d2 e2
      (fun q hq => strNe_append (hipost q hq) "_extended") he2,
    ← Except.ok.inj hd2, setK_lookup_self]

/-- C8 witness: a concrete record with one extended field. -/
theorem c8_extended_fields_witness :
    ([("id", Json.str "A"), ("lon", Json.num "1"), ("lat", Json.num "2"),
      ("nm_extended", Json.str "q:3"), ("name", Json.str "N")] : Row).lookup
      "nm_extended" = some (Json.str "q:3") :=
  c8_extended_fields
    [("id", Json.str "A"),
     ("geometry", Json.obj [("coordinates", Json.arr [Json.num "1", Json.num "2"])]),
     ("properties", Json.obj [("extended_fields",
        Json.obj [("nm", Json.arr [Json.obj [("q", Json.num "3")]])]),
        ("name", Json.str "N")])]
    [("id", Json.str "A"), ("lon", Json.num "1"), ("lat", Json.num "2"),
     ("nm_extended", Json.str "q:3"), ("name", Json.str "N")]
    [("extended_fields", Json.obj [("nm", Json.arr [Json.obj [("q", Json.num "3")]])]),
     ("name", Json.str "N")]
    [] [("name", Json.str "N")]
    [("nm", Json.arr [Json.obj [("q", Json.num "3")]])] [] []
    "nm" [Json.obj [("q", Json.num "3")]] ["q:3"]
    rfl rfl rfl rfl rfl
    (fun q hq => absurd hq (List.not_mem_nil q))
    (by decide)

/-! ### Flatness of rows -/

theorem rowFlat_setK {v : Json} (hv : scalarJ v = true) (k : String) :
    ∀ m : Row, rowFlat m = true → rowFlat (setK m k v) = true := by
  intro m
  induction m with
  | nil =>
      intro _
      simp [setK, rowFlat, hv]
  | cons p rest ih =>
      intro hm
      obtain ⟨k0, v0⟩ := p
      simp only [rowFlat, List.all_cons, Bool.and_eq_true] at hm
      by_cases h : k0 = k
      · simp [setK, h, rowFlat, List.all_cons, hv, hm.2]
      · simp only [setK, if_neg h, rowFlat, List.all_cons, Bool.and_eq_true]
        exact ⟨hm.1, ih hm.2⟩

theorem rowFlat_updDict :
    ∀ (src nd : Row), rowFlat nd = true → rowFlat src = true →
      rowFlat (updDict nd src) = true := by
  intro src
  induction src with
  | nil => intro nd h _; exact h
  | cons p rest ih =>
      intro nd hnd hsrc
      simp only [rowFlat, List.all_cons, Bool.and_eq_true] at hsrc
      exact ih (setK nd p.1 p.2) (rowFlat_setK hsrc.1 p.1 nd hnd)
        (by simp only [rowFlat]; exact hsrc.2)

theorem baseStep_flat {m : Row} (hm : rowFlat m = true) {k : String} {v : Json}
    (hp1 : k ≠ "matches" → k ≠ "geocoded_geometry" → scalarJ v = true)
    (hp2 : k = "geocoded_geometry" →
      optScalar (coordAt v 0) = true ∧ optScalar (coordAt v 1) = true) :
    rowFlat (baseStep m (k, v)) = true := by
  simp only [baseStep]
  by_cases h1 : k = "matches"
  · rw [if_pos h1]
    exact hm
  · rw [if_neg h1]
    by_cases h2 : k = "geocoded_geometry"
    · rw [if_pos h2]
      obtain ⟨hs0, hs1⟩ := hp2 h2
      cases hc0 : coordAt v 0 with
      | none =>
          exact rowFlat_setK (by rfl) _ _ (rowFlat_setK (by rfl) _ _ hm)
      | some a =>
          cases hc1 : coordAt v 1 with
          | none =>
              exact rowFlat_setK (by rfl) _ _ (rowFlat_setK (by rfl) _ _ hm)
          | some b =>
              rw [hc0] at hs0
              rw [hc1] at hs1
              simp only [optScalar] at hs0 hs1
              exact rowFlat_setK hs1 _ _ (rowFlat_setK hs0 _ _ hm)
    · rw [if_neg h2]
      have hv := hp1 h1 h2
      cases v with
      | null => exact rowFlat_setK (by rfl) _ _ hm
      | b x => exact rowFlat_setK (by rfl) _ _ hm
      | num s => exact rowFlat_setK (by rfl) _ _ hm
      | str s => exact rowFlat_setK (by rfl) _ _ hm
      | arr l => simp [scalarJ] at hv
      | obj o => simp [scalarJ] at hv

theorem foldl_baseStep_flat :
    ∀ (entries : List (String × Json)) (m : Row), rowFlat m = true →
      (∀ p ∈ entries, p.1 ≠ "matches" → p.1 ≠ "geocoded_geometry" →
        scalarJ p.2 = true) →
      (∀ p ∈ entries, p.1 = "geocoded_geometry" →
        optScalar (coordAt p.2 0) = true ∧ optScalar (coordAt p.2 1) = true) →
      rowFlat (List.foldl baseStep m entries) = true := by
  intro entries
  induction entries with
  | nil => intro m h _ _; exact h
  | cons p rest ih =>
      intro m hm hb hg
      rw [List.foldl_cons]
      exact ih (baseStep m p)
        (baseStep_flat hm (hb p (List.mem_cons_self p rest))
          (hg p (List.mem_cons_self p rest)))
        (fun q hq => hb q (List.mem_cons_of_mem p hq))
        (fun q hq => hg q (List.mem_cons_of_mem p hq))

theorem innerStep_flat {kk : String} {nd nd2 : Row} {p : String × Json}
    (h : innerStep kk nd p = Except.ok nd2) (hnd : rowFlat nd = true) :
    rowFlat nd2 = true := by
  simp only [innerStep] at h
  obtain ⟨items, _, h⟩ := bindOk h
  obtain ⟨lines, _, h⟩ := bindOk h
  obtain ⟨s, _, h⟩ := bindOk h
  rw [← Except.ok.inj h]
  exact rowFlat_setK (by rfl) _ _ hnd

theorem foldlM_innerStep_flat (kk : String) :
    ∀ (inner : List (String × Json)) (nd nd2 : Row), rowFlat nd = true →
      List.foldlM (innerStep kk) nd inner = Except.ok nd2 →
      rowFlat nd2 = true := by
  intro inner
  induction inner with
  | nil => intro nd nd2 h hh; rw [← Except.ok.inj hh]; exact h
  | cons q rest ih =>
      intro nd nd2 hnd h
      rw [List.foldlM_cons] at h
      obtain ⟨nd1, hnd1, h2⟩ := bindOk h
      exact ih nd1 nd2 (innerStep_flat hnd1 hnd) h2

theorem matchDictStep_flat {nd nd2 : Row} {q : String × Json}
    (h : matchDictStep nd q = Except.ok nd2) (hnd : rowFlat nd = true) :
    rowFlat nd2 = true := by
  obtain ⟨kk, vv⟩ := q
  cases vv with
  | arr l =>
      cases l with
      | nil =>
          replace h : Except.ok (setK nd ("match_" ++ kk) (Json.str ""))
              = Except.ok nd2 := h
          rw [← Except.ok.inj h]
          exact rowFlat_setK (by rfl) _ _ hnd
      | cons v0 vs =>
          obtain ⟨ls, _, hfs⟩ := mapOk h
          rw [← hfs]
          exact rowFlat_setK (by rfl) _ _ hnd
  | obj inner => exact foldlM_innerStep_flat kk inner nd nd2 hnd h
  | null =>
      replace h : (if pyStartsWith kk "ppe_" = true then Except.ok nd
          else Except.ok (setK nd ("match_" ++ kk) Json.null)) = Except.ok nd2 := h
      by_cases hppe : pyStartsWith kk "ppe_" = true
      · rw [if_pos hppe] at h
        rw [← Except.ok.inj h]
        exact hnd
      · rw [if_neg hppe] at h
        rw [← Except.ok.inj h]
        exact rowFlat_setK (by rfl) _ _ hnd
  | b x =>
      replace h : (if pyStartsWith kk "ppe_" = true then Except.ok nd
          else Except.ok (setK nd ("match_" ++ kk) (Json.b x))) = Except.ok nd2 := h
      by_cases hppe : pyStartsWith kk "ppe_" = true
      · rw [if_pos hppe] at h
        rw [← Except.ok.inj h]
        exact hnd
      · rw [if_neg hppe] at h
        rw [← Except.ok.inj h]
        exact rowFlat_setK (by rfl) _ _ hnd
  | num s =>
      replace h : (if pyStartsWith kk "ppe_" = true then Except.ok nd
          else Except.ok (setK nd ("match_" ++ kk) (Json.num s))) = Except.ok nd2 := h
      by_cases hppe : pyStartsWith kk "ppe_" = true
      · rw [if_pos hppe] at h
        rw [← Except.ok.inj h]
        exact hnd
      · rw [if_neg hppe] at h
        rw [← Except.ok.inj h]
        exact rowFlat_setK (by rfl) _ _ hnd
  | str s =>
      replace h : (if pyStartsWith kk "ppe_" = true then Except.ok nd
          else Except.ok (setK nd ("match_" ++ kk) (Json.str s))) = Except.ok nd2 := h
      by_cases hppe : pyStartsWith kk "ppe_" = true
      · rw [if_pos hppe] at h
        rw [← Except.ok.inj h]
        exact hnd
      · rw [if_neg hppe] at h
        rw [← Except.ok.inj h]
        exact rowFlat_setK (by rfl) _ _ hnd

theorem foldlM_matchDictStep_flat :
    ∀ (inner : List (String × Json)) (nd nd2 : Row), rowFlat nd = true →
      List.foldlM matchDictStep nd inner = Except.ok nd2 →
      rowFlat nd2 = true := by
  intro inner
  induction inner with
  | nil => intro nd nd2 h hh; rw [← Except.ok.inj hh]; exact h
  | cons q rest ih =>
      intro nd nd2 hnd h
      rw [List.foldlM_cons] at h
      obtain ⟨nd1, hnd1, h2⟩ := bindOk h
      exact ih nd1 nd2 (matchDictStep_flat hnd1 hnd) h2

theorem geomBranch_flat {nd nd2 : Row} {v : Json} (hnd : rowFlat nd = true)
    (hs0 : ∀ x, coordAtE v 0 = Except.ok x → scalarJ x = true)
    (hs1 : ∀ x, coordAtE v 1 = Except.ok x → scalarJ x = true)
    (h : (do
        let a ← coordAtE v 0
        let nd1 : Row := setK nd "match_lon" a
        let b ← coordAtE v 1
        Except.ok (setK nd1 "match_lat" b)) = Except.ok nd2) :
    rowFlat nd2 = true := by
  obtain ⟨a, ha, h⟩ := bindOk h
  obtain ⟨b, hb, h⟩ := bindOk h
  rw [← Except.ok.inj h]
  exact rowFlat_setK (hs1 b hb) _ _ (rowFlat_setK (hs0 a ha) _ _ hnd)

theorem matchStep_flat {nd nd2 : Row} {q : String × Json}
    (h : matchStep nd q = Except.ok nd2) (hnd : rowFlat nd = true)
    (hgeo : q.1 = "geometry" →
      (∀ x, coordAtE q.2 0 = Except.ok x → scalarJ x = true) ∧
      (∀ x, coordAtE q.2 1 = Except.ok x → scalarJ x = true)) :
    rowFlat nd2 = true := by
  obtain ⟨k, v⟩ := q
  cases v with
  | arr l => exact absurd h (by simp [matchStep])
  | null =>
      replace h : (if (decide (k = "Feature") || decide (k = "type")) = true
          then Except.ok nd
          else if k = "geometry" then (do
              let a ← coordAtE Json.null 0
              let nd1 : Row := setK nd "match_lon" a
              let b ← coordAtE Json.null 1
              Except.ok (setK nd1 "match_lat" b))
          else Except.ok (setK nd ("match_" ++ k) Json.null)) = Except.ok nd2 := h
      by_cases hft : (decide (k = "Feature") || decide (k = "type")) = true
      · rw [if_pos hft] at h
        rw [← Except.ok.inj h]
        exact hnd
      · rw [if_neg hft] at h
        by_cases hg : k = "geometry"
        · rw [if_pos hg] at h
          exact geomBranch_flat hnd (hgeo hg).1 (hgeo hg).2 h
        · rw [if_neg hg] at h
          rw [← Except.ok.inj h]
          exact rowFlat_setK (by rfl) _ _ hnd
  | b x =>
      replace h : (if (decide (k = "Feature") || decide (k = "type")) = true
          then Except.ok nd
          else if k = "geometry" then (do
              let a ← coordAtE (Json.b x) 0
              let nd1 : Row := setK nd "match_lon" a
              let b ← coordAtE (Json.b x) 1
              Except.ok (setK nd1 "match_lat" b))
          else Except.ok (setK nd ("match_" ++ k) (Json.b x))) = Except.ok nd2 := h
      by_cases hft : (decide (k = "Feature") || decide (k = "type")) = true
      · rw [if_pos hft] at h
        rw [← Except.ok.inj h]
        exact hnd
      · rw [if_neg hft] at h
        by_cases hg : k = "geometry"
        · rw [if_pos hg] at h
          exact geomBranch_flat hnd (hgeo hg).1 (hgeo hg).2 h
        · rw [if_neg hg] at h
          rw [← Except.ok.inj h]
          exact rowFlat_setK (by rfl) _ _ hnd
  | num s =>
      replace h : (if (decide (k = "Feature") || decide (k = "type")) = true
          then Except.ok nd
          else if k = "geometry" then (do
              let a ← coordAtE (Json.num s) 0
              let nd1 : Row := setK nd "match_lon" a
              let b ← coordAtE (Json.num s) 1
              Except.ok (setK nd1 "match_lat" b))
          else Except.ok (setK nd ("match_" ++ k) (Json.num s))) = Except.ok nd2 := h
      by_cases hft : (decide (k = "Feature") || decide (k = "type")) = true
      · rw [if_pos hft] at h
        rw [← Except.ok.inj h]
        exact hnd
      · rw [if_neg hft] at h
        by_cases hg : k = "geometry"
        · rw [if_pos hg] at h
          exact geomBranch_flat hnd (hgeo hg).1 (hgeo hg).2 h
        · rw [if_neg hg] at h
          rw [← Except.ok.inj h]
          exact rowFlat_setK (by rfl) _ _ hnd
  | str s =>
      replace h : (if (decide (k = "Feature") || decide (k = "type")) = true
          then Except.ok nd
          else if k = "geometry" then (do
              let a ← coordAtE (Json.str s) 0
              let nd1 : Row := setK nd "match_lon" a
              let b ← coordAtE (Json.str s) 1
              Except.ok (setK nd1 "match_lat" b))
          else Except.ok (setK nd ("match_" ++ k) (Json.str s))) = Except.ok nd2 := h
      by_cases hft : (decide (k = "Feature") || decide (k = "type")) = true
      · rw [if_pos hft] at h
        rw [← Except.ok.inj h]
        exact hnd
      · rw [if_neg hft] at h
        by_cases hg : k = "geometry"
        · rw [if_pos hg] at h
          exact geomBranch_flat hnd (hgeo hg).1 (hgeo hg).2 h
        · rw [if_neg hg] at h
          rw [← Except.ok.inj h]
          exact rowFlat_setK (by rfl) _ _ hnd
  | obj inner =>
      replace h : (if (decide (k = "Feature") || decide (k = "type")) = true
          then Except.ok nd
          else if k = "geometry" then (do
              let a ← coordAtE (Json.obj inner) 0
              let nd1 : Row := setK nd "match_lon" a
              let b ← coordAtE (Json.obj inner) 1
              Except.ok (setK nd1 "match_lat" b))
          else List.foldlM matchDictStep nd inner) = Except.ok nd2 := h
      by_cases hft : (decide (k = "Feature") || decide (k = "type")) = true
      · rw [if_pos hft] at h
        rw [← Except.ok.inj h]
        exact hnd
      · rw [if_neg hft] at h
        by_cases hg : k = "geometry"
        · rw [if_pos hg] at h
          exact geomBranch_flat hnd (hgeo hg).1 (hgeo hg).2 h
        · rw [if_neg hg] at h
          exact foldlM_matchDictStep_flat inner nd nd2 hnd h

theorem foldlM_matchStep_flat :
    ∀ (mi : List (String × Json)) (nd nd2 : Row), rowFlat nd = true →
      (∀ q ∈ mi, q.1 = "geometry" →
        (∀ x, coordAtE q.2 0 = Except.ok x → scalarJ x = true) ∧
        (∀ x, coordAtE q.2 1 = Except.ok x → scalarJ x = true)) →
      List.foldlM matchStep nd mi = Except.ok nd2 → rowFlat nd2 = true := by
  intro mi
  induction mi with
  | nil => intro nd nd2 h _ hh; rw [← Except.ok.inj hh]; exact h
  | cons q rest ih =>
      intro nd nd2 hnd hq h
      rw [List.foldlM_cons] at h
      obtain ⟨nd1, hnd1, h2⟩ := bindOk h
      exact ih nd1 nd2
        (matchStep_flat hnd1 hnd (hq q (List.mem_cons_self _ _)))
        (fun p hp => hq p (List.mem_cons_of_mem _ hp)) h2

theorem procMatch_flat {base : Row} (hb : rowFlat base = true) {n : Nat}
    {m : Json} {r : Row} (h : procMatch base n m = Except.ok r)
    (hgeo : ∀ mi, m = Json.obj mi → ∀ q ∈ mi, q.1 = "geometry" →
      (∀ x, coordAtE q.2 0 = Except.ok x → scalarJ x = true) ∧
      (∀ x, coordAtE q.2 1 = Except.ok x → scalarJ x = true)) :
    rowFlat r = true := by
  cases m with
  | obj mi =>
      have hstart : rowFlat (updDict [("match_no", Json.num (toString n))] base)
          = true :=
        rowFlat_updDict base [("match_no", Json.num (toString n))]
          (by simp [rowFlat, scalarJ]) hb
      exact foldlM_matchStep_flat mi _ r hstart (fun q hq => hgeo mi rfl q hq) h
  | null => exact absurd h (by simp [procMatch])
  | b x => exact absurd h (by simp [procMatch])
  | num s => exact absurd h (by simp [procMatch])
  | str s => exact absurd h (by simp [procMatch])
  | arr l => exact absurd h (by simp [procMatch])

theorem matchLoop_flat (base : Row) (hb : rowFlat base = true) :
    ∀ (ms : List Json) (n : Nat) (rows : List Row),
      (∀ m ∈ ms, ∀ mi, m = Json.obj mi → ∀ q ∈ mi, q.1 = "geometry" →
        (∀ x, coordAtE q.2 0 = Except.ok x → scalarJ x = true) ∧
        (∀ x, coordAtE q.2 1 = Except.ok x → scalarJ x = true)) →
      matchLoop base n ms = Except.ok rows → ∀ r ∈ rows, rowFlat r = true := by
  intro ms
  induction ms with
  | nil =>
      intro n rows _ h r hr
      simp only [matchLoop] at h
      rw [← Except.ok.inj h] at hr
      exact absurd hr (List.not_mem_nil r)
  | cons m rest ih =>
      intro n rows hgeo h r hr
      simp only [matchLoop] at h
      obtain ⟨r1, hr1, h2⟩ := bindOk h
      obtain ⟨rs, hrs, h3⟩ := bindOk h2
      rw [← Except.ok.inj h3] at hr
      rcases List.mem_cons.mp hr with heq | hmem
      · rw [heq]
        exact procMatch_flat hb hr1 (hgeo m (List.mem_cons_self _ _))
      · exact ih (n + 1) rs
          (fun m2 hm2 => hgeo m2 (List.mem_cons_of_mem _ hm2)) hrs r hmem

/-- C2 counterexample: the FlatRow invariant fails on
`_flatten_facilities_json` — the base loop stores top-level composite
values unchanged, so a list-valued field appears as a list in the
returned row. -/
theorem c2_counterexample :
    flattenFacilities [("a", Json.arr [Json.num "1"]), ("matches", Json.arr [])]
      = Except.ok [[("a", Json.arr [Json.num "1"])]]
    ∧ rowFlat [("a", Json.arr [Json.num "1"])] = false :=
  ⟨rfl, rfl⟩

/-- C2 amended: rows of `_flatten_facilities_json` are flat provided the
record's own top-level values (other than `matches` and
`geocoded_geometry`) are scalars and all geometry coordinate entries are
scalars; every match-derived composite field is serialized to a string,
but base composite values and composite coordinate entries would be
copied into the rows verbatim (per the counterexample). -/
theorem c2_rows_flat (entries : List (String × Json)) (ms : List Json)
    (rows : List Row)
    (hm : entries.lookup "matches" = some (Json.arr ms))
    (hbase : ∀ p ∈ entries, p.1 ≠ "matches" → p.1 ≠ "geocoded_geometry" →
      scalarJ p.2 = true)
    (hgeo : ∀ p ∈ entries, p.1 = "geocoded_geometry" →
      optScalar (coordAt p.2 0) = true ∧ optScalar (coordAt p.2 1) = true)
    (hmg : ∀ m ∈ ms, ∀ mi, m = Json.obj mi → ∀ q ∈ mi, q.1 = "geometry" →
      (∀ x, coordAtE q.2 0 = Except.ok x → scalarJ x = true) ∧
      (∀ x, coordAtE q.2 1 = Except.ok x → scalarJ x = true))
    (hok : flattenFacilities entries = Except.ok rows) :
    ∀ r ∈ rows, rowFlat r = true := by
  have hbflat : rowFlat (baseEntry entries) = true :=
    foldl_baseStep_flat entries [] rfl hbase hgeo
  simp only [flattenFacilities, hm, pyLen, pyIter] at hok
  by_cases hpos : ms.length > 0
  · rw [if_pos hpos] at hok
    exact matchLoop_flat (baseEntry entries) hbflat ms 1 rows hmg hok
  · rw [if_neg hpos] at hok
    intro r hr
    rw [← Except.ok.inj hok] at hr
    rw [List.mem_singleton.mp hr]
    exact hbflat

/-- C2 amended witness: a concrete scalar record yields a flat row. -/
theorem c2_rows_flat_witness :
    rowFlat [("a", Json.str "b")] = true :=
  c2_rows_flat [("a", Json.str "b"), ("matches", Json.arr [])] [] [[("a", Json.str "b")]]
    rfl (by decide) (by decide)
    (fun m hm2 => absurd hm2 (List.not_mem_nil m))
    rfl [("a", Json.str "b")] (List.Mem.head _)

/-! ### Key sets and preservation of base fields in match rows -/

theorem setK_map_fst (m : Row) (k : String) (v : Json) :
    (setK m k v).map Prod.fst
      = if k ∈ m.map Prod.fst then m.map Prod.fst
        else m.map Prod.fst ++ [k] := by
  induction m with
  | nil => simp [setK]
  | cons p rest ih =>
      obtain ⟨k0, v0⟩ := p
      by_cases h : k0 = k
      · subst h
        simp [setK]
      · simp only [setK, if_neg h, List.map_cons, ih, List.mem_cons]
        have hne : ¬(k = k0) := fun hc => h hc.symm
        by_cases hk : k ∈ rest.map Prod.fst
        · simp [hk, hne]
        · simp [hk, hne]

theorem nodup_setK {m : Row} (h : (m.map Prod.fst).Nodup) (k : String) (v : Json) :
    ((setK m k v).map Prod.fst).Nodup := by
  rw [setK_map_fst]
  by_cases hk : k ∈ m.map Prod.fst
  · rw [if_pos hk]
    exact h
  · rw [if_neg hk]
    rw [List.nodup_append]
    refine ⟨h, List.nodup_singleton k, fun a ha hb => ?_⟩
    rw [List.mem_singleton] at hb
    subst hb
    exact hk ha

theorem baseStep_nodup {m : Row} (h : (m.map Prod.fst).Nodup) (p : String × Json) :
    ((baseStep m p).map Prod.fst).Nodup := by
  obtain ⟨k, v⟩ := p
  simp only [baseStep]
  by_cases h1 : k = "matches"
  · rw [if_pos h1]
    exact h
  · rw [if_neg h1]
    by_cases h2 : k = "geocoded_geometry"
    · rw [if_pos h2]
      cases coordAt v 0 <;> cases coordAt v 1 <;>
        exact nodup_setK (nodup_setK h _ _) _ _
    · rw [if_neg h2]
      cases v <;> exact nodup_setK h _ _

theorem baseEntry_nodup :
    ∀ (entries : List (String × Json)) (m : Row), (m.map Prod.fst).Nodup →
      ((List.foldl baseStep m entries).map Prod.fst).Nodup := by
  intro entries
  induction entries with
  | nil => intro m h; exact h
  | cons p rest ih =>
      intro m h
      rw [List.foldl_cons]
      exact ih (baseStep m p) (baseStep_nodup h p)

theorem updDict_lookup_notmem :
    ∀ (src nd : Row) (k : String), k ∉ src.map Prod.fst →
      (updDict nd src).lookup k = nd.lookup k := by
  intro src
  induction src with
  | nil => intro nd k _; rfl
  | cons p rest ih =>
      intro nd k hk
      simp only [List.map_cons, List.mem_cons] at hk
      push_neg at hk
      exact (ih (setK nd p.1 p.2) k hk.2).trans (setK_lookup_ne hk.1 nd p.2)

theorem updDict_lookup_first :
    ∀ (src nd : Row) {k : String} {v : Json}, (src.map Prod.fst).Nodup →
      src.lookup k = some v → (updDict nd src).lookup k = some v := by
  intro src
  induction src with
  | nil => intro nd k v _ h; simp [List.lookup] at h
  | cons p rest ih =>
      intro nd k v hnd hl
      obtain ⟨k0, v0⟩ := p
      rw [List.map_cons, List.nodup_cons] at hnd
      by_cases hk : k = k0
      · subst hk
        rw [lookup_cons_self] at hl
        have := updDict_lookup_notmem rest (setK nd k v0) k hnd.1
        exact this.trans (by rw [setK_lookup_self, hl])
      · rw [lookup_cons_ne hk] at hl
        exact ih (setK nd k0 v0) hnd.2 hl

theorem strStarts_append : ∀ (p r : List Char), strStarts p (p ++ r) = true := by
  intro p r
  induction p with
  | nil => rfl
  | cons c ps ih => simp [strStarts, ih]

theorem pyStartsWith_append (p s : String) : pyStartsWith (p ++ s) p = true := by
  simp only [pyStartsWith, String.data_append]
  exact strStarts_append p.data s.data

theorem ne_of_not_match {t : String} (h : pyStartsWith t "match_" = false)
    (s : String) : t ≠ "match_" ++ s := by
  intro heq
  rw [heq, pyStartsWith_append] at h
  exact Bool.noConfusion h

theorem innerStep_pres {kk : String} {nd nd2 : Row} {p : String × Json}
    (h : innerStep kk nd p = Except.ok nd2) :
    (∀ t, (nd.lookup t).isSome = true → (nd2.lookup t).isSome = true) ∧
    (∀ t, pyStartsWith t "match_" = false → nd2.lookup t = nd.lookup t) := by
  simp only [innerStep] at h
  obtain ⟨items, _, h⟩ := bindOk h
  obtain ⟨lines, _, h⟩ := bindOk h
  obtain ⟨s, _, h⟩ := bindOk h
  rw [← Except.ok.inj h]
  constructor
  · intro t ht
    exact setK_lookup_isSome nd _ _ ht
  · intro t hnp
    have hkey : "match_" ++ kk ++ "_" ++ p.1 = "match_" ++ (kk ++ ("_" ++ p.1)) := by
      rw [String.append_assoc, String.append_assoc]
    exact setK_lookup_ne
      (fun heq => ne_of_not_match hnp (kk ++ ("_" ++ p.1)) (heq.trans hkey)) nd _

theorem foldlM_innerStep_pres (kk : String) :
    ∀ (inner : List (String × Json)) (nd nd2 : Row),
      List.foldlM (innerStep kk) nd inner = Except.ok nd2 →
      (∀ t, (nd.lookup t).isSome = true → (nd2.lookup t).isSome = true) ∧
      (∀ t, pyStartsWith t "match_" = false → nd2.lookup t = nd.lookup t) := by
  intro inner
  induction inner with
  | nil =>
      intro nd nd2 h
      rw [← Except.ok.inj h]
      exact ⟨fun t ht => ht, fun t _ => rfl⟩
  | cons q rest ih =>
      intro nd nd2 h
      rw [List.foldlM_cons] at h
      obtain ⟨nd1, hnd1, h2⟩ := bindOk h
      have hh := innerStep_pres hnd1
      have ht := ih nd1 nd2 h2
      exact ⟨fun t hs => ht.1 t (hh.1 t hs),
        fun t hnp => (ht.2 t hnp).trans (hh.2 t hnp)⟩

theorem matchDictStep_pres {nd nd2 : Row} {q : String × Json}
    (h : matchDictStep nd q = Except.ok nd2) :
    (∀ t, (nd.lookup t).isSome = true → (nd2.lookup t).isSome = true) ∧
    (∀ t, pyStartsWith t "match_" = false → nd2.lookup t = nd.lookup t) := by
  obtain ⟨kk, vv⟩ := q
  have hgen : ∀ (w : Json), nd2 = setK nd ("match_" ++ kk) w →
      (∀ t, (nd.lookup t).isSome = true → (nd2.lookup t).isSome = true) ∧
      (∀ t, pyStartsWith t "match_" = false → nd2.lookup t = nd.lookup t) := by
    intro w hw
    subst hw
    constructor
    · intro t ht
      exact setK_lookup_isSome nd _ _ ht
    · intro t hnp
      exact setK_lookup_ne (ne_of_not_match hnp kk) nd w
  cases vv with
  | arr l =>
      cases l with
      | nil => exact hgen _ (Except.ok.inj h).symm
      | cons v0 vs =>
          obtain ⟨ls, _, hfs⟩ := mapOk h
          exact hgen _ hfs.symm
  | obj inner => exact foldlM_innerStep_pres kk inner nd nd2 h
  | null =>
      replace h : (if pyStartsWith kk "ppe_" = true then Except.ok nd
          else Except.ok (setK nd ("match_" ++ kk) Json.null)) = Except.ok nd2 := h
      by_cases hppe : pyStartsWith kk "ppe_" = true
      · rw [if_pos hppe] at h
        rw [← Except.ok.inj h]
        exact ⟨fun t ht => ht, fun t _ => rfl⟩
      · rw [if_neg hppe] at h
        exact hgen _ (Except.ok.inj h).symm
  | b x =>
      replace h : (if pyStartsWith kk "ppe_" = true then Except.ok nd
          else Except.ok (setK nd ("match_" ++ kk) (Json.b x))) = Except.ok nd2 := h
      by_cases hppe : pyStartsWith kk "ppe_" = true
      · rw [if_pos hppe] at h
        rw [← Except.ok.inj h]
        exact ⟨fun t ht => ht, fun t _ => rfl⟩
      · rw [if_neg hppe] at h
        exact hgen _ (Except.ok.inj h).symm
  | num s =>
      replace h : (if pyStartsWith kk "ppe_" = true then Except.ok nd
          else Except.ok (setK nd ("match_" ++ kk) (Json.num s))) = Except.ok nd2 := h
      by_cases hppe : pyStartsWith kk "ppe_" = true
      · rw [if_pos hppe] at h
        rw [← Except.ok.inj h]
        exact ⟨fun t ht => ht, fun t _ => rfl⟩
      · rw [if_neg hppe] at h
        exact hgen _ (Except.ok.inj h).symm
  | str s =>
      replace h : (if pyStartsWith kk "ppe_" = true then Except.ok nd
          else Except.ok (setK nd ("match_" ++ kk) (Json.str s))) = Except.ok nd2 := h
      by_cases hppe : pyStartsWith kk "ppe_" = true
      · rw [if_pos hppe] at h
        rw [← Except.ok.inj h]
        exact ⟨fun t ht => ht, fun t _ => rfl⟩
      · rw [if_neg hppe] at h
        exact hgen _ (Except.ok.inj h).symm

theorem foldlM_matchDictStep_pres :
    ∀ (inner : List (String × Json)) (nd nd2 : Row),
      List.foldlM matchDictStep nd inner = Except.ok nd2 →
      (∀ t, (nd.lookup t).isSome = true → (nd2.lookup t).isSome = true) ∧
      (∀ t, pyStartsWith t "match_" = false → nd2.lookup t = nd.lookup t) := by
  intro inner
  induction inner with
  | nil =>
      intro nd nd2 h
      rw [← Except.ok.inj h]
      exact ⟨fun t ht => ht, fun t _ => rfl⟩
  | cons q rest ih =>
      intro nd nd2 h
      rw [List.foldlM_cons] at h
      obtain ⟨nd1, hnd1, h2⟩ := bindOk h
      have hh := matchDictStep_pres hnd1
      have ht := ih nd1 nd2 h2
      exact ⟨fun t hs => ht.1 t (hh.1 t hs),
        fun t hnp => (ht.2 t hnp).trans (hh.2 t hnp)⟩

theorem matchStep_pres {nd nd2 : Row} {q : String × Json}
    (h : matchStep nd q = Except.ok nd2) :
    (∀ t, (nd.lookup t).isSome = true → (nd2.lookup t).isSome = true) ∧
    (∀ t, pyStartsWith t "match_" = false → nd2.lookup t = nd.lookup t) := by
  obtain ⟨k, v⟩ := q
  have hgeoBranch : ∀ (w : Json), ((do
        let a ← coordAtE w 0
        let nd1 : Row := setK nd "match_lon" a
        let b ← coordAtE w 1
        Except.ok (setK nd1 "match_lat" b)) = Except.ok nd2) →
      (∀ t, (nd.lookup t).isSome = true → (nd2.lookup t).isSome = true) ∧
      (∀ t, pyStartsWith t "match_" = false → nd2.lookup t = nd.lookup t) := by
    intro w hdo
    obtain ⟨a, _, hdo⟩ := bindOk hdo
    obtain ⟨b, _, hdo⟩ := bindOk hdo
    rw [← Except.ok.inj hdo]
    constructor
    · intro t ht
      exact setK_lookup_isSome _ _ _ (setK_lookup_isSome _ _ _ ht)
    · intro t hnp
      have h1 : t ≠ "match_lon" :=
        fun heq => ne_of_not_match hnp "lon" (heq.trans (by decide))
      have h2 : t ≠ "match_lat" :=
        fun heq => ne_of_not_match hnp "lat" (heq.trans (by decide))
      rw [setK_lookup_ne h2, setK_lookup_ne h1]
  have hscalar : ∀ (w : Json), nd2 = setK nd ("match_" ++ k) w →
      (∀ t, (nd.lookup t).isSome = true → (nd2.lookup t).isSome = true) ∧
      (∀ t, pyStartsWith t "match_" = false → nd2.lookup t = nd.lookup t) := by
    intro w hw
    subst hw
    constructor
    · intro t ht
      exact setK_lookup_isSome nd _ _ ht
    · intro t hnp
      exact setK_lookup_ne (ne_of_not_match hnp k) nd w
  have hid : nd2 = nd →
      (∀ t, (nd.lookup t).isSome = true → (nd2.lookup t).isSome = true) ∧
      (∀ t, pyStartsWith t "match_" = false → nd2.lookup t = nd.lookup t) := by
    intro hw
    subst hw
    exact ⟨fun t ht => ht, fun t _ => rfl⟩
  cases v with
  | arr l => exact absurd h (by simp [matchStep])
  | null =>
      replace h : (if (decide (k = "Feature") || decide (k = "type")) = true
          then Except.ok nd
          else if k = "geometry" then (do
              let a ← coordAtE Json.null 0
              let nd1 : Row := setK nd "match_lon" a
              let b ← coordAtE Json.null 1
              Except.ok (setK nd1 "match_lat" b))
          else Except.ok (setK nd ("match_" ++ k) Json.null)) = Except.ok nd2 := h
      by_cases hft : (decide (k = "Feature") || decide (k = "type")) = true
      · rw [if_pos hft] at h
        exact hid (Except.ok.inj h).symm
      · rw [if_neg hft] at h
        by_cases hg : k = "geometry"
        · rw [if_pos hg] at h
          exact hgeoBranch Json.null h
        · rw [if_neg hg] at h
          exact hscalar _ (Except.ok.inj h).symm
  | b xb =>
      replace h : (if (decide (k = "Feature") || decide (k = "type")) = true
          then Except.ok nd
          else if k = "geometry" then (do
              let a ← coordAtE (Json.b xb) 0
              let nd1 : Row := setK nd "match_lon" a
              let b ← coordAtE (Json.b xb) 1
              Except.ok (setK nd1 "match_lat" b))
          else Except.ok (setK nd ("match_" ++ k) (Json.b xb))) = Except.ok nd2 := h
      by_cases hft : (decide (k = "Feature") || decide (k = "type")) = true
      · rw [if_pos hft] at h
        exact hid (Except.ok.inj h).symm
      · rw [if_neg hft] at h
        by_cases hg : k = "geometry"
        · rw [if_pos hg] at h
          exact hgeoBranch (Json.b xb) h
        · rw [if_neg hg] at h
          exact hscalar _ (Except.ok.inj h).symm
  | num s =>
      replace h : (if (decide (k = "Feature") || decide (k = "type")) = true
          then Except.ok nd
          else if k = "geometry" then (do
              let a ← coordAtE (Json.num s) 0
              let nd1 : Row := setK nd "match_lon" a
              let b ← coordAtE (Json.num s) 1
              Except.ok (setK nd1 "match_lat" b))
          else Except.ok (setK nd ("match_" ++ k) (Json.num s))) = Except.ok nd2 := h
      by_cases hft : (decide (k = "Feature") || decide (k = "type")) = true
      · rw [if_pos hft] at h
        exact hid (Except.ok.inj h).symm
      · rw [if_neg hft] at h
        by_cases hg : k = "geometry"
        · rw [if_pos hg] at h
          exact hgeoBranch (Json.num s) h
        · rw [if_neg hg] at h
          exact hscalar _ (Except.ok.inj h).symm
  | str s =>
      replace h : (if (decide (k = "Feature") || decide (k = "type")) = true
          then Except.ok nd
          else if k = "geometry" then (do
              let a ← coordAtE (Json.str s) 0
              let nd1 : Row := setK nd "match_lon" a
              let b ← coordAtE (Json.str s) 1
              Except.ok (setK nd1 "match_lat" b))
          else Except.ok (setK nd ("match_" ++ k) (Json.str s))) = Except.ok nd2 := h
      by_cases hft : (decide (k = "Feature") || decide (k = "type")) = true
      · rw [if_pos hft] at h
        exact hid (Except.ok.inj h).symm
      · rw [if_neg hft] at h
        by_cases hg : k = "geometry"
        · rw [if_pos hg] at h
          exact hgeoBranch (Json.str s) h
        · rw [if_neg hg] at h
          exact hscalar _ (Except.ok.inj h).symm
  | obj inner =>
      replace h : (if (decide (k = "Feature") || decide (k = "type")) = true
          then Except.ok nd
          else if k = "geometry" then (do
              let a ← coordAtE (Json.obj inner) 0
              let nd1 : Row := setK nd "match_lon" a
              let b ← coordAtE (Json.obj inner) 1
              Except.ok (setK nd1 "match_lat" b))
          else List.foldlM matchDictStep nd inner) = Except.ok nd2 := h
      by_cases hft : (decide (k = "Feature") || decide (k = "type")) = true
      · rw [if_pos hft] at h
        exact hid (Except.ok.inj h).symm
      · rw [if_neg hft] at h
        by_cases hg : k = "geometry"
        · rw [if_pos hg] at h
          exact hgeoBranch (Json.obj inner) h
        · rw [if_neg hg] at h
          exact foldlM_matchDictStep_pres inner nd nd2 h

theorem foldlM_matchStep_pres :
    ∀ (mi : List (String × Json)) (nd nd2 : Row),
      List.foldlM matchStep nd mi = Except.ok nd2 →
      (∀ t, (nd.lookup t).isSome = true → (nd2.lookup t).isSome = true) ∧
      (∀ t, pyStartsWith t "match_" = false → nd2.lookup t = nd.lookup t) := by
  intro mi
  induction mi with
  | nil =>
      intro nd nd2 h
      rw [← Except.ok.inj h]
      exact ⟨fun t ht => ht, fun t _ => rfl⟩
  | cons q rest ih =>
      intro nd nd2 h
      rw [List.foldlM_cons] at h
      obtain ⟨nd1, hnd1, h2⟩ := bindOk h
      have hh := matchStep_pres hnd1
      have ht := ih nd1 nd2 h2
      exact ⟨fun t hs => ht.1 t (hh.1 t hs),
        fun t hnp => (ht.2 t hnp).trans (hh.2 t hnp)⟩

theorem matchLoop_mem (base : Row) :
    ∀ (ms : List Json) (n : Nat) (rows : List Row),
      matchLoop base n ms = Except.ok rows → ∀ r ∈ rows,
      ∃ n2 m, m ∈ ms ∧ procMatch base n2 m = Except.ok r := by
  intro ms
  induction ms with
  | nil =>
      intro n rows h r hr
      simp only [matchLoop] at h
      rw [← Except.ok.inj h] at hr
      exact absurd hr (List.not_mem_nil r)
  | cons m rest ih =>
      intro n rows h r hr
      simp only [matchLoop] at h
      obtain ⟨r1, hr1, h2⟩ := bindOk h
      obtain ⟨rs, hrs, h3⟩ := bindOk h2
      rw [← Except.ok.inj h3] at hr
      rcases List.mem_cons.mp hr with heq | hmem
      · exact ⟨n, m, List.mem_cons_self _ _, by rw [← heq] at hr1; exact hr1⟩
      · obtain ⟨n2, m2, hm2, hp2⟩ := ih (n + 1) rs hrs r hmem
        exact ⟨n2, m2, List.mem_cons_of_mem _ hm2, hp2⟩

/-- C5 counterexample: a base field whose own key carries a `match_`
prefix is overwritten by a match-derived field — the base flattening
maps `match_name` to `"X"`, but the returned match row maps it to the
match's own `name` value `"Y"`. -/
theorem c5_counterexample :
    baseEntry [("match_name", Json.str "X"),
        ("matches", Json.arr [Json.obj [("name", Json.str "Y")]])]
      = [("match_name", Json.str "X")]
    ∧ flattenFacilities [("match_name", Json.str "X"),
        ("matches", Json.arr [Json.obj [("name", Json.str "Y")]])]
      = Except.ok [[("match_no", Json.num "1"), ("match_name", Json.str "Y")]]
    ∧ ([(("match_no" : String), Json.num "1"), ("match_name", Json.str "Y")] : Row).lookup
        "match_name" = some (Json.str "Y") :=
  ⟨rfl, rfl, rfl⟩

/-- C5 amended: for a record with a non-empty match list, every key of
the base flattening is present in every returned row; and every base
key that does not itself begin with `match_` keeps its base value in
every row (match-derived keys all begin with `match_`, so only base
keys with that prefix can be overwritten, per the counterexample). -/
theorem c5_base_fields (entries : List (String × Json)) (ms : List Json)
    (rows : List Row) (k : String) (v : Json)
    (hm : entries.lookup "matches" = some (Json.arr ms))
    (hne : ms ≠ [])
    (hok : flattenFacilities entries = Except.ok rows)
    (hbk : (baseEntry entries).lookup k = some v) :
    ∀ r ∈ rows, (r.lookup k).isSome = true ∧
      (pyStartsWith k "match_" = false → r.lookup k = some v) := by
  simp only [flattenFacilities, hm, pyLen, pyIter] at hok
  have hpos : ms.length > 0 := List.length_pos.mpr hne
  rw [if_pos hpos] at hok
  intro r hr
  obtain ⟨n2, m, hmem, hpm⟩ := matchLoop_mem (baseEntry entries) ms 1 rows hok r hr
  cases m with
  | obj mi =>
      have hnodup : ((baseEntry entries).map Prod.fst).Nodup :=
        baseEntry_nodup entries [] List.nodup_nil
      have hstart : (updDict [("match_no", Json.num (toString n2))]
          (baseEntry entries)).lookup k = some v :=
        updDict_lookup_first (baseEntry entries) _ hnodup hbk
      have hpres := foldlM_matchStep_pres mi _ r hpm
      refine ⟨hpres.1 k (by rw [hstart]; rfl), fun hnp => ?_⟩
      rw [hpres.2 k hnp, hstart]
  | null => exact absurd hpm (by simp [procMatch])
  | b x => exact absurd hpm (by simp [procMatch])
  | num s => exact absurd hpm (by simp [procMatch])
  | str s => exact absurd hpm (by simp [procMatch])
  | arr l => exact absurd hpm (by simp [procMatch])

/-- C5 amended witness: a concrete base field survives into the match
row with its base value. -/
theorem c5_base_fields_witness :
    ([(("match_no" : String), Json.num "1"), ("name", Json.str "A"),
        ("match_x", Json.str "Y")] : Row).lookup "name" = some (Json.str "A") :=
  ((c5_base_fields
      [("name", Json.str "A"), ("matches", Json.arr [Json.obj [("x", Json.str "Y")]])]
      [Json.obj [("x", Json.str "Y")]]
      [[("match_no", Json.num "1"), ("name", Json.str "A"), ("match_x", Json.str "Y")]]
      "name" (Json.str "A") rfl (by simp) rfl rfl
      [("match_no", Json.num "1"), ("name", Json.str "A"), ("match_x", Json.str "Y")]
      (List.Mem.head _)).2) rfl

end Pyosh
